import Mathlib

/-! # Backup-file constants, option codes, line codec and path evaluator

A shallow embedding of the declarations of `src/include/shared.h`: the string
and size constants of the backup file format, the `path_type` enumeration with
the `path_param` structure, and the codes of the long-only command-line options.
C string literals are Lean strings, `#define`d integers are naturals, and an
enumeration is an inductive type whose integer values are computed from the
declaration by the C rule for enumerators.

The header declares no function. The line codec that uses the markers and the
size limits, and the evaluator that produces a `path_type`, are modelled from
the design description of the backup tool; every such definition says so.
-/

set_option autoImplicit false

namespace Shared

/-! ## Constants of the backup file format -/

/-- Indicates a new-style backup file. -/
def VERSION_1_1 : String := "1.1"

/-- The maximal length of a meta data line in a backup file. -/
def MAX_META_LINE : Nat := 1000

/-- Every meta data line starts with this. -/
def META_PREFIX : String := "# "

/-- The meta data tag that marks the backup file that was written first. -/
def META_FIRST_FILE : String := "first-file"

/-- The meta data tag that specifies the namespace from which this backup file was created. -/
def META_NAMESPACE : String := "namespace"

/-- Every global data (secondary index information and UDF files) line starts with this. -/
def GLOBAL_PREFIX : String := "* "

/-- Every record meta data (digest, generation, etc.) line starts with this. -/
def RECORD_META_PREFIX : String := "+ "

/-- Every record bin line starts with this. -/
def RECORD_BIN_PREFIX : String := "- "

/-- The maximal length of an individual syntactic token in the backup file. -/
def MAX_TOKEN_SIZE : Nat := 1000

/-- The four line-kind markers, in the order the header defines them. -/
def linePrefixes : List String :=
  [META_PREFIX, GLOBAL_PREFIX, RECORD_META_PREFIX, RECORD_BIN_PREFIX]

/-- A line starts with a marker when the marker's characters are its first characters
(what `strncmp (line, marker, strlen (marker)) == 0` tests). -/
def startsWith (line marker : String) : Bool :=
  marker.data.isPrefixOf line.data

/-! ## Enumerations -/

/-- Values of the enumerators of a C `enum`, in declaration order: an enumerator with an
initialiser has that value, one without has the value of the one before it plus one, and
the first one without an initialiser is 0. The first argument is the value the next
enumerator gets when it has no initialiser. -/
def enumValues : Int → List (Option Int) → List Int
  | _, [] => []
  | next, ini :: rest => ini.getD next :: enumValues (ini.getD next + 1) rest

/-- The value of enumerator `x` of an enumeration declared as `decl` (each enumerator with
its initialiser, if it has one). -/
def enumValueOf {α : Type} [BEq α] (decl : List (α × Option Int)) (x : α) : Option Int :=
  ((decl.map Prod.fst).zip (enumValues 0 (decl.map Prod.snd))).lookup x

/-- The enumerator of `decl` that has value `v`, if there is one. -/
def enumOfValue {α : Type} (decl : List (α × Option Int)) (v : Int) : Option α :=
  (((decl.map Prod.fst).zip (enumValues 0 (decl.map Prod.snd))).find? (fun e => e.2 == v)).map
    Prod.fst

/-- The integers an object of any enumerated type can hold, whatever the implementation: C
makes an enumerated type compatible with `char` or with a signed or unsigned integer type
that represents the values of all its enumerators, and each of these types represents at
least 0..127. The enumerators do not bound what is stored. -/
def enumObjectHolds (v : Int) : Bool :=
  decide (0 ≤ v ∧ v ≤ 127)

/-- The data type of a path expression. -/
inductive path_type where
  /-- Invalid. -/
  | PATH_TYPE_INVALID
  /-- The path results in a string. -/
  | PATH_TYPE_STRING
  /-- The path results in an integer. -/
  | PATH_TYPE_NUMERIC
  /-- The path results in a geojson value. -/
  | PATH_TYPE_GEOJSON
  deriving DecidableEq, Repr

/-- The declaration of `path_type`: four enumerators, none with an initialiser. -/
def path_type.decl : List (path_type × Option Int) :=
  [(.PATH_TYPE_INVALID, none), (.PATH_TYPE_STRING, none),
   (.PATH_TYPE_NUMERIC, none), (.PATH_TYPE_GEOJSON, none)]

/-- The integer value of a `path_type` enumerator. -/
def path_type.toInt (t : path_type) : Option Int := enumValueOf path_type.decl t

/-- The `path_type` enumerator an integer stands for. -/
def path_type.ofInt (v : Int) : Option path_type := enumOfValue path_type.decl v

/-- Represents a path expression and its data type. The C field `path` is a pointer to a
string, `none` being the null pointer. -/
structure path_param where
  /-- The path expression. -/
  path : Option String
  /-- The data type. -/
  type : path_type
  deriving DecidableEq, Repr

/-- A `path_param` whose storage is all zero (`= { 0 }`, `calloc`, static storage): the
pointer is null and the type is the enumerator with value 0, when there is one. -/
def path_param.zeroed : Option path_param :=
  (path_type.ofInt 0).map fun t => { path := none, type := t }

/-- Identifies the TLS client command line options. -/
inductive tls_opt where
  | TLS_OPT_ENABLE
  | TLS_OPT_ENCRYPT_ONLY
  | TLS_OPT_CA_FILE
  | TLS_OPT_CA_PATH
  | TLS_OPT_PROTOCOLS
  | TLS_OPT_CIPHER_SUITE
  | TLS_OPT_CRL_CHECK
  | TLS_OPT_CRL_CHECK_ALL
  | TLS_OPT_CERT_BLACK_LIST
  | TLS_OPT_LOG_SESSION_INFO
  | TLS_OPT_KEY_FILE
  | TLS_OPT_KEY_FILE_PASSWORD
  | TLS_OPT_CERT_FILE
  deriving DecidableEq, Repr

/-- The declaration of `tls_opt`: only the first enumerator has an initialiser. -/
def tls_opt.decl : List (tls_opt × Option Int) :=
  [(.TLS_OPT_ENABLE, some 1000), (.TLS_OPT_ENCRYPT_ONLY, none), (.TLS_OPT_CA_FILE, none),
   (.TLS_OPT_CA_PATH, none), (.TLS_OPT_PROTOCOLS, none), (.TLS_OPT_CIPHER_SUITE, none),
   (.TLS_OPT_CRL_CHECK, none), (.TLS_OPT_CRL_CHECK_ALL, none),
   (.TLS_OPT_CERT_BLACK_LIST, none), (.TLS_OPT_LOG_SESSION_INFO, none),
   (.TLS_OPT_KEY_FILE, none), (.TLS_OPT_KEY_FILE_PASSWORD, none), (.TLS_OPT_CERT_FILE, none)]

/-- The integer value of a `tls_opt` enumerator. -/
def tls_opt.toInt (o : tls_opt) : Option Int := enumValueOf tls_opt.decl o

/-- Identifies the config file command line options. -/
inductive cfgfile_opt where
  | CONFIG_FILE_OPT_FILE
  | CONFIG_FILE_OPT_INSTANCE
  | CONFIG_FILE_OPT_NO_CONFIG_FILE
  | CONFIG_FILE_OPT_ONLY_CONFIG_FILE
  deriving DecidableEq, Repr

/-- The declaration of `cfgfile_opt`: only the first enumerator has an initialiser. -/
def cfgfile_opt.decl : List (cfgfile_opt × Option Int) :=
  [(.CONFIG_FILE_OPT_FILE, some 2000), (.CONFIG_FILE_OPT_INSTANCE, none),
   (.CONFIG_FILE_OPT_NO_CONFIG_FILE, none), (.CONFIG_FILE_OPT_ONLY_CONFIG_FILE, none)]

/-- The integer value of a `cfgfile_opt` enumerator. -/
def cfgfile_opt.toInt (o : cfgfile_opt) : Option Int := enumValueOf cfgfile_opt.decl o

/-- The code of the CDT fix option. -/
def CDT_FIX_OPT : Int := 3000

/-- The code of the CDT print option. -/
def CDT_PRINT : Int := 3001

/-- The codes of all long-only options: the values of the `tls_opt` enumerators, those of
the `cfgfile_opt` enumerators, `CDT_FIX_OPT` and `CDT_PRINT`. -/
def longOptCodes : List Int :=
  enumValues 0 (tls_opt.decl.map Prod.snd) ++ enumValues 0 (cfgfile_opt.decl.map Prod.snd)
    ++ [CDT_FIX_OPT, CDT_PRINT]

/-! ## The backup line codec

The header only names the markers and the two size limits; the codec that uses them is
not part of the header. The definitions of this section model it from the design
description of the backup file format. -/

/-- Modelled from the spec: the error taxonomy of the design, which the header does not
declare. `FormatError` covers a malformed line, a marker mismatch, an exceeded size limit
and a sequencing violation. -/
inductive Error where
  | FormatError
  | IOError
  | VersionError
  | WorkerFailure
  deriving DecidableEq, Repr

/-- Modelled from the spec: one byte of a payload. -/
abbrev Byte := Fin 256

/-- Modelled from the spec: a meta line is a key/value pair after the meta marker, such
as `namespace test`, or a key alone, such as `first-file`. -/
structure MetaLine where
  key : String
  value : Option String
  deriving DecidableEq, Repr

/-- Modelled from the spec: a record's identity and generation metadata (digest, generation
counter, expiration). -/
structure RecordMeta where
  digest : List Byte
  generation : Nat
  expiration : Nat
  deriving DecidableEq, Repr

/-- Modelled from the spec: the value of a bin with its type tag, one of the value classes
string, numeric and geojson. A numeric value is an integer, the others are byte payloads. -/
inductive BinValue where
  | numeric (v : Int)
  | string (bytes : List Byte)
  | geojson (bytes : List Byte)
  deriving DecidableEq, Repr

/-- Modelled from the spec: one bin of a record: its name and its typed value. -/
structure RecordBin where
  name : String
  value : BinValue
  deriving DecidableEq, Repr

/-- Modelled from the spec: a decoded line, one constructor per marker. -/
inductive Line where
  | metaData (m : MetaLine)
  | globalData (fields : List String)
  | recordMeta (m : RecordMeta)
  | recordBin (b : RecordBin)
  deriving DecidableEq, Repr

/-- Modelled from the spec: one record-meta line followed by zero or more record-bin
lines. -/
structure RecordGroup where
  header : RecordMeta
  bins : List RecordBin
  deriving DecidableEq, Repr

/-- Modelled from the spec: the decoder state object the caller passes into each decode
call: the record context opened by the most recent record-meta line, if any, and the
number of records begun so far. -/
structure DecoderState where
  current : Option RecordMeta
  recordCount : Nat
  deriving DecidableEq, Repr

/-- Modelled from the spec: the state at the start of a file: no record context, no record
counted. -/
def DecoderState.initial : DecoderState := { current := none, recordCount := 0 }

/-! ### Field encodings -/

/-- Modelled from the spec: the lower-case hexadecimal digit of a value below 16. -/
def hexDigit (n : Nat) : Char :=
  if n < 10 then Char.ofNat (48 + n) else Char.ofNat (87 + n)

/-- Modelled from the spec: the value of a lower-case hexadecimal digit. -/
def hexValue (c : Char) : Option Nat :=
  if 48 ≤ c.toNat ∧ c.toNat ≤ 57 then some (c.toNat - 48)
  else if 97 ≤ c.toNat ∧ c.toNat ≤ 102 then some (c.toNat - 87)
  else none

/-- Modelled from the spec: `<hex>`, two hexadecimal digits per byte. -/
def encodeHex : List Byte → List Char
  | [] => []
  | b :: bs => hexDigit (b.val / 16) :: hexDigit (b.val % 16) :: encodeHex bs

/-- Modelled from the spec: reads `<hex>` back; an odd number of digits or a character
that is no hexadecimal digit is an error. -/
def decodeHex : List Char → Option (List Byte)
  | [] => some []
  | [_] => none
  | h :: l :: rest =>
    match hexValue h, hexValue l, decodeHex rest with
    | some hi, some lo, some bs => some (Fin.ofNat (16 * hi + lo) :: bs)
    | _, _, _ => none

/-- Modelled from the spec: the decimal digits of `n` in front of `acc`; `fuel` bounds the
number of digits. -/
def encodeNatAux : Nat → Nat → List Char → List Char
  | 0, _, acc => acc
  | fuel + 1, n, acc =>
    if n / 10 = 0 then Char.ofNat (48 + n % 10) :: acc
    else encodeNatAux fuel (n / 10) (Char.ofNat (48 + n % 10) :: acc)

/-- Modelled from the spec: `<int>`, the decimal digits of a natural number. -/
def encodeNat (n : Nat) : List Char := encodeNatAux (n + 1) n []

/-- Modelled from the spec: reads decimal digits onto the value `acc` read so far. -/
def decodeNatAux : Nat → List Char → Option Nat
  | acc, [] => some acc
  | acc, c :: cs =>
    if 48 ≤ c.toNat ∧ c.toNat ≤ 57 then decodeNatAux (acc * 10 + (c.toNat - 48)) cs else none

/-- Modelled from the spec: reads `<int>` back; an empty token or a character that is no
digit is an error. -/
def decodeNat (cs : List Char) : Option Nat :=
  if cs = [] then none else decodeNatAux 0 cs

/-- Modelled from the spec: a numeric value, decimal with a leading `-` when negative. -/
def encodeInt (v : Int) : List Char :=
  if v < 0 then Char.ofNat 45 :: encodeNat v.natAbs else encodeNat v.natAbs

/-- Modelled from the spec: reads a numeric value back. -/
def decodeInt : List Char → Option Int
  | [] => none
  | c :: cs =>
    if c.toNat = 45 then
      match decodeNat cs with
      | some n => some (-(Int.ofNat n))
      | none => none
    else
      match decodeNat (c :: cs) with
      | some n => some (Int.ofNat n)
      | none => none

/-- Modelled from the spec: a byte that stands for itself in an escaped payload: printable ASCII
other than the space, the double quote and the backslash. -/
def isPlain (n : Nat) : Bool :=
  decide (33 ≤ n) && decide (n ≤ 126) && decide (n ≠ 34) && decide (n ≠ 92)

/-- Modelled from the spec: the escaped representation of a byte payload. A plain byte is
written as its character, any other byte (space, newline and the other control
characters, quote, backslash, bytes from 127 up) as a backslash and two hexadecimal
digits. -/
def escape : List Byte → List Char
  | [] => []
  | b :: bs =>
    if isPlain b.val then Char.ofNat b.val :: escape bs
    else Char.ofNat 92 :: hexDigit (b.val / 16) :: hexDigit (b.val % 16) :: escape bs

/-- Modelled from the spec: reads an escaped payload back; a character that is neither
plain nor the start of a complete escape is an error. -/
def unescape : List Char → Option (List Byte)
  | [] => some []
  | c :: rest =>
    if c.toNat = 92 then
      match rest with
      | h :: l :: rest' =>
        match hexValue h, hexValue l, unescape rest' with
        | some hi, some lo, some bs => some (Fin.ofNat (16 * hi + lo) :: bs)
        | _, _, _ => none
      | _ => none
    else if isPlain c.toNat then
      match unescape rest with
      | some bs => some (Fin.ofNat c.toNat :: bs)
      | none => none
    else none

/-- Modelled from the spec: a payload token, the escaped payload between double quotes,
as in `"Alice"`. -/
def quote (bs : List Byte) : List Char :=
  Char.ofNat 34 :: (escape bs ++ [Char.ofNat 34])

/-- Modelled from the spec: reads a payload token back: it must start and end with a double
quote. -/
def unquote : List Char → Option (List Byte)
  | [] => none
  | c :: cs =>
    if c.toNat = 34 then
      match cs.reverse with
      | d :: body => if d.toNat = 34 then unescape body.reverse else none
      | [] => none
    else none

/-- Modelled from the spec: the type tag of a bin value. -/
def typeTag : BinValue → String
  | .numeric _ => "numeric"
  | .string _ => "string"
  | .geojson _ => "geojson"

/-- Modelled from the spec: `<encoded-value>`, by the type of the value. -/
def encodeValue : BinValue → List Char
  | .numeric v => encodeInt v
  | .string bs => quote bs
  | .geojson bs => quote bs

/-- Modelled from the spec: reads `<type> <encoded-value>` back; an unknown type tag is an
error. -/
def decodeValue (tag tok : List Char) : Option BinValue :=
  if tag = "numeric".data then (decodeInt tok).map BinValue.numeric
  else if tag = "string".data then (unquote tok).map BinValue.string
  else if tag = "geojson".data then (unquote tok).map BinValue.geojson
  else none

/-! ### Lines -/

/-- Modelled from the spec: a line: the marker followed by the fields, separated by single
spaces. -/
def lineOf (marker : String) (fields : List (List Char)) : String :=
  ⟨marker.data ++ [' '].intercalate fields⟩

/-- Modelled from the spec: the tokens of a line: its pieces between spaces. In a line that
starts with a marker the first token is the marker's character and the others are the fields. -/
def lineTokens (line : String) : List (List Char) :=
  line.data.splitOn ' '

/-- Modelled from the spec: the text of a meta line, `# <key>` or `# <key> <value>`. -/
def metaText (m : MetaLine) : String :=
  match m.value with
  | none => lineOf META_PREFIX [m.key.data]
  | some v => lineOf META_PREFIX [m.key.data, v.data]

/-- Modelled from the spec: the meta-line encoder of the line codec, which is not in the
header. Encoding a meta line is rejected when its total length exceeds `MAX_META_LINE`. -/
def encodeMeta (m : MetaLine) : Except Error String :=
  if MAX_META_LINE < (metaText m).length then .error .FormatError else .ok (metaText m)

/-- Modelled from the spec: the record-meta encoder of the line codec, which is not in the
header: `+ digest <hex> generation <int> expiration <int>`. -/
def encodeRecordMeta (m : RecordMeta) : String :=
  lineOf RECORD_META_PREFIX
    ["digest".data, encodeHex m.digest, "generation".data, encodeNat m.generation,
     "expiration".data, encodeNat m.expiration]

/-- Modelled from the spec: the record-bin encoder of the line codec, which is not in the
header: `- <bin-name> <type> <encoded-value>`. -/
def encodeRecordBin (b : RecordBin) : String :=
  lineOf RECORD_BIN_PREFIX [b.name.data, (typeTag b.value).data, encodeValue b.value]

/-- Modelled from the spec: the lines of a record group, the record-meta line first. -/
def encodeGroup (g : RecordGroup) : List String :=
  encodeRecordMeta g.header :: g.bins.map encodeRecordBin

/-- Modelled from the spec: the fields of a meta line: a key, or a key and a value. -/
def decodeMetaFields : List (List Char) → Option MetaLine
  | [k] => some { key := ⟨k⟩, value := none }
  | [k, v] => some { key := ⟨k⟩, value := some ⟨v⟩ }
  | _ => none

/-- Modelled from the spec: the fields of a record-meta line. -/
def decodeRecordMetaFields : List (List Char) → Option RecordMeta
  | [d, h, g, n, e, x] =>
    if d = "digest".data ∧ g = "generation".data ∧ e = "expiration".data then
      match decodeHex h, decodeNat n, decodeNat x with
      | some digest, some generation, some expiration =>
        some { digest := digest, generation := generation, expiration := expiration }
      | _, _, _ => none
    else none
  | _ => none

/-- Modelled from the spec: the fields of a record-bin line. -/
def decodeRecordBinFields : List (List Char) → Option RecordBin
  | [n, t, v] => (decodeValue t v).map fun val => { name := ⟨n⟩, value := val }
  | _ => none

/-- Modelled from the spec: the line decoder of the line codec, which is not in the header. It
decodes one line in the decoder state `st` and gives the decoded line, or the error, with the
state after the call. Every token is checked against `MAX_TOKEN_SIZE` first; then the line is
dispatched on its marker. A meta line longer than `MAX_META_LINE` is an error; a record-meta
line opens a record context and counts a record; a record-bin line needs an open record context;
a line with none of the four markers is an error. An error leaves the state as it was. -/
def decodeLine (st : DecoderState) (line : String) : Except Error Line × DecoderState :=
  if (lineTokens line).any (fun t => decide (MAX_TOKEN_SIZE < t.length)) then
    (.error .FormatError, st)
  else if startsWith line META_PREFIX then
    if MAX_META_LINE < line.length then (.error .FormatError, st)
    else
      match decodeMetaFields (lineTokens line).tail with
      | some m => (.ok (.metaData m), st)
      | none => (.error .FormatError, st)
  else if startsWith line GLOBAL_PREFIX then
    (.ok (.globalData ((lineTokens line).tail.map String.mk)), st)
  else if startsWith line RECORD_META_PREFIX then
    match decodeRecordMetaFields (lineTokens line).tail with
    | some m =>
      (.ok (.recordMeta m), { current := some m, recordCount := st.recordCount + 1 })
    | none => (.error .FormatError, st)
  else if startsWith line RECORD_BIN_PREFIX then
    match st.current with
    | none => (.error .FormatError, st)
    | some _ =>
      match decodeRecordBinFields (lineTokens line).tail with
      | some b => (.ok (.recordBin b), st)
      | none => (.error .FormatError, st)
  else (.error .FormatError, st)

/-- Modelled from the spec: decodes lines in order, threading the state, and stops at the
first error, which is returned with the state reached before the offending line. -/
def decodeLines (st : DecoderState) : List String → Except Error (List Line) × DecoderState
  | [] => (.ok [], st)
  | l :: ls =>
    match decodeLine st l with
    | (.error e, st') => (.error e, st')
    | (.ok x, st') =>
      match decodeLines st' ls with
      | (.ok xs, st'') => (.ok (x :: xs), st'')
      | (.error e, st'') => (.error e, st'')

/-- Modelled from the spec: the text of a sequence of lines: every line is terminated by a
newline. -/
def fileText (lines : List String) : String :=
  ⟨(lines.map fun l => l.data ++ ['\n']).flatten⟩

/-- Modelled from the spec: the lines of a text: its pieces between newlines; the empty piece
after the last newline is no line. -/
def textLines (text : String) : List String :=
  if (text.data.splitOn '\n').getLast? = some [] then
    ((text.data.splitOn '\n').dropLast).map String.mk
  else (text.data.splitOn '\n').map String.mk

/-- Modelled from the spec: decodes a text line by line. -/
def decodeText (st : DecoderState) (text : String) : Except Error (List Line) × DecoderState :=
  decodeLines st (textLines text)

/-- Modelled from the spec: a valid record-meta line: the digest and the two counters are
tokens within the token-size limit. -/
def RecordMeta.valid (m : RecordMeta) : Prop :=
  (encodeHex m.digest).length ≤ MAX_TOKEN_SIZE ∧
  (encodeNat m.generation).length ≤ MAX_TOKEN_SIZE ∧
  (encodeNat m.expiration).length ≤ MAX_TOKEN_SIZE

/-- Modelled from the spec: a valid record-bin line: the bin name is one token (no space, no
newline) within the token-size limit. The payload is not constrained. -/
def RecordBin.valid (b : RecordBin) : Prop :=
  ' ' ∉ b.name.data ∧ '\n' ∉ b.name.data ∧ b.name.length ≤ MAX_TOKEN_SIZE

/-- Modelled from the spec: a valid group: a valid record-meta line and valid record-bin
lines, whatever their payloads. -/
def RecordGroup.valid (g : RecordGroup) : Prop :=
  g.header.valid ∧ ∀ b ∈ g.bins, b.valid

/-- Modelled from the spec: the encoded value of the bin is a token within the token-size
limit. -/
def RecordBin.fits (b : RecordBin) : Prop :=
  (encodeValue b.value).length ≤ MAX_TOKEN_SIZE

/-- Modelled from the spec: every encoded value of the group is a token within the
token-size limit. -/
def RecordGroup.fits (g : RecordGroup) : Prop :=
  ∀ b ∈ g.bins, b.fits

instance (m : RecordMeta) : Decidable m.valid := by
  unfold RecordMeta.valid; infer_instance

instance (b : RecordBin) : Decidable b.valid := by
  unfold RecordBin.valid; infer_instance

instance (g : RecordGroup) : Decidable g.valid := by
  unfold RecordGroup.valid; infer_instance

instance (b : RecordBin) : Decidable b.fits := by
  unfold RecordBin.fits; infer_instance

instance (g : RecordGroup) : Decidable g.fits := by
  unfold RecordGroup.fits; infer_instance

/-! ## The path expression evaluator

The header declares the result type `path_type` and the pair `path_param`; the evaluator
that resolves a path is not part of the header. The definitions of this section model it
from the design description. -/

/-- Modelled from the spec: the wire type tag of a terminal value. Only the integer, string
and geospatial tags have a path type; `other` stands for every other tag. -/
inductive WireTag where
  | integer
  | string
  | geospatial
  | other
  deriving DecidableEq, Repr

/-- Modelled from the spec: a bin value as the evaluator sees it: a terminal value with its
wire type tag and content, or a container, a map of named fields or a list of elements. -/
inductive Value where
  | scalar (tag : WireTag) (content : List Byte)
  | map (fields : List (String × Value))
  | list (items : List Value)

/-- Modelled from the spec: the type of a terminal value, by its wire type tag alone, never
by its content; geojson only for the geospatial tag. A container has no path type. -/
def classify : Value → path_type
  | .scalar .integer _ => .PATH_TYPE_NUMERIC
  | .scalar .string _ => .PATH_TYPE_STRING
  | .scalar .geospatial _ => .PATH_TYPE_GEOJSON
  | .scalar .other _ => .PATH_TYPE_INVALID
  | .map _ => .PATH_TYPE_INVALID
  | .list _ => .PATH_TYPE_INVALID

/-- Modelled from the spec: dereferences one component of a path in a value: the field of
that name in a map, the element at that decimal index in a list, nothing in a terminal
value. -/
def select (step : List Char) : Value → Option Value
  | .scalar _ _ => none
  | .map fields => fields.lookup ⟨step⟩
  | .list items =>
    match decodeNat step with
    | some i => items[i]?
    | none => none

/-- Modelled from the spec: resolves the components of a path one after the other; a
component with no matching field gives invalid, the end of the path gives the type of
the value reached. -/
def resolveSteps : List (List Char) → Value → path_type
  | [], v => classify v
  | s :: rest, v =>
    match select s v with
    | none => .PATH_TYPE_INVALID
    | some v' => resolveSteps rest v'

/-- Modelled from the spec: the components of a dotted path string. -/
def pathSteps (path : String) : List (List Char) :=
  path.data.splitOn '.'

/-- Modelled from the spec: the path expression evaluator, which is not in the header. It
resolves a path string against a record, given as its bins by name; the first component
names the bin. -/
def resolve (path : String) (record : List (String × Value)) : path_type :=
  resolveSteps (pathSteps path) (.map record)

/-- Modelled from the spec: the value lacks a field referenced by the path: some component
of the path, reached by dereferencing the components before it, has no matching field. -/
inductive Lacks : List (List Char) → Value → Prop where
  | missing {s : List Char} {rest : List (List Char)} {v : Value} :
      select s v = none → Lacks (s :: rest) v
  | deeper {s : List Char} {rest : List (List Char)} {v v' : Value} :
      select s v = some v' → Lacks rest v' → Lacks (s :: rest) v

/-! ## Theorems -/

/-! ### The constants and enumerations of the header -/

theorem startsWith_unique (line p q : String) (hp : p ∈ linePrefixes) (hq : q ∈ linePrefixes)
    (h1 : startsWith line p = true) (h2 : startsWith line q = true) : p = q := by
  have hlen : ∀ r ∈ linePrefixes, r.data.length = 2 := by decide
  have e1 := List.prefix_iff_eq_take.mp (List.isPrefixOf_iff_prefix.mp h1)
  have e2 := List.prefix_iff_eq_take.mp (List.isPrefixOf_iff_prefix.mp h2)
  rw [hlen p hp] at e1
  rw [hlen q hq] at e2
  exact String.ext (e1.trans e2.symm)

/-- C1: the four line-kind markers are `"# "`, `"* "`, `"+ "` and `"- "`, each is exactly two
characters long, the four are pairwise distinct, and a line starts with at most one of them:
two markers that both match the start of a line are the same marker, so at most one of the
four matches any given line. -/
theorem line_prefixes_identify_at_most_one_kind :
    META_PREFIX = "# " ∧ GLOBAL_PREFIX = "* " ∧ RECORD_META_PREFIX = "+ " ∧
    RECORD_BIN_PREFIX = "- " ∧
    (∀ p ∈ linePrefixes, p.length = 2) ∧
    linePrefixes.Nodup ∧
    (∀ line : String, ∀ p ∈ linePrefixes, ∀ q ∈ linePrefixes,
      startsWith line p = true → startsWith line q = true → p = q) ∧
    (∀ line : String, (linePrefixes.filter (startsWith line)).length ≤ 1) := by
  have hlen : ∀ p ∈ linePrefixes, p.length = 2 := by decide
  have hnd : linePrefixes.Nodup := by decide
  have huniq : ∀ line : String, ∀ p ∈ linePrefixes, ∀ q ∈ linePrefixes,
      startsWith line p = true → startsWith line q = true → p = q :=
    fun line p hp q hq h1 h2 => startsWith_unique line p q hp hq h1 h2
  refine ⟨rfl, rfl, rfl, rfl, hlen, hnd, huniq, ?_⟩
  intro line
  have hnd2 : (linePrefixes.filter (startsWith line)).Nodup := hnd.filter _
  match h : linePrefixes.filter (startsWith line) with
  | [] => simp
  | [_] => simp
  | a :: b :: rest =>
    exfalso
    have ha : a ∈ linePrefixes.filter (startsWith line) := by rw [h]; simp
    have hb : b ∈ linePrefixes.filter (startsWith line) := by rw [h]; simp
    rw [List.mem_filter] at ha hb
    have hab : a = b := huniq line a ha.1 b hb.1 ha.2 hb.2
    rw [h, hab] at hnd2
    simp at hnd2

/-- C1 at the line `"+ digest ab12"`: it starts with the record-meta marker and with no other
one. -/
theorem line_prefixes_identify_at_most_one_kind_witness :
    startsWith "+ digest ab12" RECORD_META_PREFIX = true ∧
    (linePrefixes.filter (startsWith "+ digest ab12")).length ≤ 1 :=
  ⟨by decide, line_prefixes_identify_at_most_one_kind.2.2.2.2.2.2.2 "+ digest ab12"⟩

/-- C2, as stated, fails: the token-size limit is not strictly smaller than the meta-line
limit. -/
theorem token_limit_not_below_meta_limit : ¬ (MAX_TOKEN_SIZE < MAX_META_LINE) := by
  decide

/-- C2, amended: the token-size limit is a separate constant that does not exceed the
meta-line limit; the two are equal, both 1000. -/
theorem token_limit_eq_meta_limit :
    MAX_TOKEN_SIZE = 1000 ∧ MAX_META_LINE = 1000 ∧ MAX_TOKEN_SIZE = MAX_META_LINE ∧
    MAX_TOKEN_SIZE ≤ MAX_META_LINE := by
  decide

/-- C3, as stated, fails: not every value of `path_type` is one of the four. An object of
the type can hold the integer 4, and 4 is the value of no enumerator. -/
theorem path_type_object_outside_enumerators :
    enumObjectHolds 4 = true ∧ path_type.ofInt 4 = none ∧
    ¬ (∀ v : Int, enumObjectHolds v = true → ∃ t : path_type, path_type.ofInt v = some t) := by
  refine ⟨by decide, by decide, ?_⟩
  intro h
  obtain ⟨t, ht⟩ := h 4 (by decide)
  have h4 : path_type.ofInt 4 = none := by decide
  rw [h4] at ht
  exact absurd ht (by simp)

/-- C3, amended: `path_type` declares exactly the four enumerators invalid, string, numeric
and geojson; their integer values, computed from the declaration, are 0, 1, 2 and 3 and
pairwise distinct, so two enumerators with the same value are the same enumerator; every
enumerator is recovered from its value; and an integer is the value of one of the four
exactly when it lies between 0 and 3. -/
theorem path_type_four_enumerators :
    path_type.decl.map Prod.fst = [.PATH_TYPE_INVALID, .PATH_TYPE_STRING, .PATH_TYPE_NUMERIC,
      .PATH_TYPE_GEOJSON] ∧
    enumValues 0 (path_type.decl.map Prod.snd) = [0, 1, 2, 3] ∧
    (enumValues 0 (path_type.decl.map Prod.snd)).Nodup ∧
    (∀ a b : path_type, a.toInt = b.toInt → a = b) ∧
    (∀ t : path_type, t.toInt.bind path_type.ofInt = some t) ∧
    (∀ v : Int, (path_type.ofInt v).isSome = true ↔ 0 ≤ v ∧ v ≤ 3) := by
  refine ⟨rfl, by decide, by decide, ?_, ?_, ?_⟩
  · intro a b
    cases a <;> cases b <;> decide
  · intro t
    cases t <;> decide
  · intro v
    constructor
    · intro h
      by_contra hv
      have h0 : ((0 : Int) == v) = false := beq_eq_false_iff_ne.mpr (by omega)
      have h1 : ((1 : Int) == v) = false := beq_eq_false_iff_ne.mpr (by omega)
      have h2 : ((2 : Int) == v) = false := beq_eq_false_iff_ne.mpr (by omega)
      have h3 : ((3 : Int) == v) = false := beq_eq_false_iff_ne.mpr (by omega)
      have hn : path_type.ofInt v = none := by
        simp only [path_type.ofInt, enumOfValue, path_type.decl, enumValues, List.map,
          List.zip, List.zipWith, Option.getD, List.find?, Int.reduceAdd, h0, h1, h2, h3,
          Option.map_none']
      rw [hn] at h
      exact absurd h (by simp)
    · intro hv
      have hcases : v = 0 ∨ v = 1 ∨ v = 2 ∨ v = 3 := by omega
      rcases hcases with h | h | h | h <;> subst h <;> decide

/-- C3, amended, at the integers 2 and 3 and at the enumerator geojson: 2 is the value of an
enumerator, numeric, geojson is recovered from its value 3, and an enumerator with the
value of geojson is geojson. -/
theorem path_type_four_enumerators_witness :
    (path_type.ofInt 2).isSome = true ∧
    path_type.toInt .PATH_TYPE_GEOJSON = some 3 ∧
    path_type.ofInt 3 = some .PATH_TYPE_GEOJSON :=
  have h := path_type_four_enumerators
  ⟨(h.2.2.2.2.2 2).mpr (by decide), by decide,
   by
    have e := h.2.2.2.2.1 .PATH_TYPE_GEOJSON
    have e3 : path_type.toInt .PATH_TYPE_GEOJSON = some 3 := by decide
    rw [e3] at e
    exact e⟩

/-- C4: the version tag is `"1.1"`; the meta marker followed by the first-file tag is the
line `"# first-file"`; for every namespace name, the meta marker followed by the namespace
tag, one space and the name is `"# namespace <name>"`, for the name `test` the line
`"# namespace test"`; and both of these example lines are at most `MAX_META_LINE` long. -/
theorem header_lines_from_constants :
    VERSION_1_1 = "1.1" ∧
    META_PREFIX ++ META_FIRST_FILE = "# first-file" ∧
    (∀ name : String, META_PREFIX ++ META_NAMESPACE ++ " " ++ name = "# namespace " ++ name) ∧
    META_PREFIX ++ META_NAMESPACE ++ " " ++ "test" = "# namespace test" ∧
    (META_PREFIX ++ META_NAMESPACE ++ " " ++ "test").length ≤ MAX_META_LINE ∧
    (META_PREFIX ++ META_FIRST_FILE).length ≤ MAX_META_LINE := by
  refine ⟨rfl, by decide, ?_, by decide, by decide, by decide⟩
  intro name
  apply String.ext
  simp [META_PREFIX, META_NAMESPACE]

/-- C9: the thirteen `tls_opt` values are 1000..1012 in declaration order, the four
`cfgfile_opt` values are 2000..2003, `CDT_FIX_OPT` is 3000 and `CDT_PRINT` is 3001; the
declarations list every enumerator; the nineteen codes are pairwise distinct and each is
greater than 255, so none is the code of a single-character option (a value 0..255). -/
theorem long_option_codes_never_collide :
    (∀ o : tls_opt, o ∈ tls_opt.decl.map Prod.fst) ∧
    (tls_opt.decl.map Prod.fst).map tls_opt.toInt =
      [some 1000, some 1001, some 1002, some 1003, some 1004, some 1005, some 1006,
       some 1007, some 1008, some 1009, some 1010, some 1011, some 1012] ∧
    tls_opt.toInt .TLS_OPT_ENABLE = some 1000 ∧
    tls_opt.toInt .TLS_OPT_CERT_FILE = some 1012 ∧
    (∀ o : cfgfile_opt, o ∈ cfgfile_opt.decl.map Prod.fst) ∧
    (cfgfile_opt.decl.map Prod.fst).map cfgfile_opt.toInt =
      [some 2000, some 2001, some 2002, some 2003] ∧
    CDT_FIX_OPT = 3000 ∧ CDT_PRINT = 3001 ∧
    longOptCodes = [1000, 1001, 1002, 1003, 1004, 1005, 1006, 1007, 1008, 1009, 1010, 1011,
      1012, 2000, 2001, 2002, 2003, 3000, 3001] ∧
    longOptCodes.length = 19 ∧
    longOptCodes.Nodup ∧
    (∀ c ∈ longOptCodes, 255 < c) ∧
    (∀ c ∈ longOptCodes, ∀ ch : Fin 256, c ≠ ((ch : Nat) : Int)) := by
  have hgt : ∀ c ∈ longOptCodes, 255 < c := by decide
  refine ⟨?_, by decide, by decide, by decide, ?_, by decide, rfl, rfl, by decide, by decide,
    by decide, hgt, ?_⟩
  · intro o
    cases o <;> decide
  · intro o
    cases o <;> decide
  · intro c hc ch
    have h1 := hgt c hc
    have h2 : ((ch : Nat) : Int) < 256 := by exact_mod_cast ch.isLt
    omega

/-- C9 at the code of `--tls-cafile` and the character `h` (104): the code 1002 is above 255
and differs from 104. -/
theorem long_option_codes_never_collide_witness :
    (1002 : Int) ∈ longOptCodes ∧ (255 : Int) < 1002 ∧
    (1002 : Int) ≠ (((104 : Fin 256) : Nat) : Int) :=
  let h := long_option_codes_never_collide.2.2.2.2.2.2.2.2.2.2.2
  ⟨by decide, h.1 1002 (by decide), h.2 1002 (by decide) 104⟩

/-- C10: `PATH_TYPE_INVALID` is the first enumerator of `path_type` and has value 0, string
is 1, numeric is 2 and geojson is 3; the enumerator with value 0 is invalid, so a
`path_param` whose storage is all zero has type invalid, not string, numeric or geojson. -/
theorem zeroed_path_param_is_invalid :
    path_type.decl.head? = some (.PATH_TYPE_INVALID, none) ∧
    path_type.toInt .PATH_TYPE_INVALID = some 0 ∧
    path_type.toInt .PATH_TYPE_STRING = some 1 ∧
    path_type.toInt .PATH_TYPE_NUMERIC = some 2 ∧
    path_type.toInt .PATH_TYPE_GEOJSON = some 3 ∧
    path_type.ofInt 0 = some .PATH_TYPE_INVALID ∧
    path_param.zeroed = some { path := none, type := .PATH_TYPE_INVALID } ∧
    path_param.zeroed.map path_param.type ≠ some .PATH_TYPE_STRING ∧
    path_param.zeroed.map path_param.type ≠ some .PATH_TYPE_NUMERIC ∧
    path_param.zeroed.map path_param.type ≠ some .PATH_TYPE_GEOJSON := by
  decide

/-! ### Field encodings and lines of the codec -/

theorem char_toNat_ofNat (n : Nat) (h : n < 256) : (Char.ofNat n).toNat = n := by
  have hv : n.isValidChar := Or.inl (by omega)
  simp [Char.ofNat, hv, Char.toNat, Char.ofNatAux, UInt32.toNat]

theorem hexValue_hexDigit (n : Nat) (h : n < 16) : hexValue (hexDigit n) = some n := by
  unfold hexDigit hexValue
  split
  · rw [char_toNat_ofNat _ (by omega)]
    simp
    omega
  · rw [char_toNat_ofNat _ (by omega)]
    have h1 : ¬ (48 ≤ 87 + n ∧ 87 + n ≤ 57) := by omega
    have h2 : (97 ≤ 87 + n ∧ 87 + n ≤ 102) := by omega
    simp [h1, h2]

theorem hexDigit_code (n : Nat) (h : n < 16) :
    48 ≤ (hexDigit n).toNat ∧ (hexDigit n).toNat ≤ 102 := by
  unfold hexDigit
  split
  · rw [char_toNat_ofNat _ (by omega)]; omega
  · rw [char_toNat_ofNat _ (by omega)]; omega

theorem byte_of_nibbles (b : Byte) : (Fin.ofNat (16 * (b.val / 16) + b.val % 16) : Byte) = b := by
  apply Fin.ext
  have := b.isLt
  simp [Fin.ofNat]
  omega

theorem decodeHex_encodeHex (bs : List Byte) : decodeHex (encodeHex bs) = some bs := by
  induction bs with
  | nil => rfl
  | cons b bs ih =>
    have hb := b.isLt
    simp only [encodeHex, decodeHex]
    rw [hexValue_hexDigit _ (by omega), hexValue_hexDigit _ (by omega), ih]
    simp only [byte_of_nibbles]


theorem decodeNatAux_digits (fuel : Nat) :
    ∀ (n : Nat) (acc : List Char), n < fuel →
      decodeNatAux 0 (encodeNatAux fuel n acc) = decodeNatAux n acc := by
  induction fuel with
  | zero => intro n acc h; omega
  | succ fuel ih =>
    intro n acc h
    have hd : (Char.ofNat (48 + n % 10)).toNat = 48 + n % 10 :=
      char_toNat_ofNat _ (by omega)
    have hr : 48 ≤ 48 + n % 10 ∧ 48 + n % 10 ≤ 57 := by omega
    unfold encodeNatAux
    split
    · rename_i h0
      simp only [decodeNatAux, hd, hr, and_self, if_true]
      congr 1
      omega
    · rename_i h0
      rw [ih (n / 10) _ (by omega)]
      simp only [decodeNatAux, hd, hr, and_self, if_true]
      congr 1
      omega

theorem encodeNatAux_ne_nil (fuel n : Nat) (acc : List Char) :
    encodeNatAux (fuel + 1) n acc ≠ [] := by
  induction fuel generalizing n acc with
  | zero =>
    unfold encodeNatAux
    split
    · simp
    · simp [encodeNatAux]
  | succ fuel ih =>
    unfold encodeNatAux
    split
    · simp
    · exact ih _ _

theorem decodeNat_encodeNat (n : Nat) : decodeNat (encodeNat n) = some n := by
  unfold decodeNat encodeNat
  rw [if_neg (encodeNatAux_ne_nil n n [])]
  rw [decodeNatAux_digits (n + 1) n [] (by omega)]
  rfl


theorem encodeNatAux_chars (fuel : Nat) :
    ∀ (n : Nat) (acc : List Char), ∀ c ∈ encodeNatAux fuel n acc,
      (48 ≤ c.toNat ∧ c.toNat ≤ 57) ∨ c ∈ acc := by
  induction fuel with
  | zero => intro n acc c hc; exact Or.inr hc
  | succ fuel ih =>
    intro n acc c hc
    have hd : (Char.ofNat (48 + n % 10)).toNat = 48 + n % 10 :=
      char_toNat_ofNat _ (by omega)
    unfold encodeNatAux at hc
    split at hc
    · rcases List.mem_cons.mp hc with h | h
      · left; rw [h, hd]; omega
      · exact Or.inr h
    · rcases ih _ _ c hc with h | h
      · exact Or.inl h
      · rcases List.mem_cons.mp h with h | h
        · left; rw [h, hd]; omega
        · exact Or.inr h

theorem encodeNat_chars (n : Nat) : ∀ c ∈ encodeNat n, 48 ≤ c.toNat ∧ c.toNat ≤ 57 := by
  intro c hc
  rcases encodeNatAux_chars _ _ _ c hc with h | h
  · exact h
  · simp at h

theorem decodeInt_encodeInt (v : Int) : decodeInt (encodeInt v) = some v := by
  unfold encodeInt
  split
  · rename_i hneg
    have h45 : (Char.ofNat 45).toNat = 45 := char_toNat_ofNat _ (by omega)
    simp only [decodeInt, h45, if_true, decodeNat_encodeNat, Int.ofNat_eq_coe]
    congr 1
    omega
  · rename_i hpos
    have hne : encodeNat v.natAbs ≠ [] := encodeNatAux_ne_nil _ _ _
    match h : encodeNat v.natAbs with
    | [] => exact absurd h hne
    | c :: cs =>
      have hc := encodeNat_chars v.natAbs c (by rw [h]; simp)
      have h45 : ¬ c.toNat = 45 := by omega
      simp only [decodeInt, h45, if_false]
      rw [← h, decodeNat_encodeNat]
      simp only [Int.ofNat_eq_coe]
      congr 1
      omega

theorem isPlain_bounds (n : Nat) (h : isPlain n = true) :
    33 ≤ n ∧ n ≤ 126 ∧ n ≠ 34 ∧ n ≠ 92 := by
  simpa [isPlain, and_assoc] using h

theorem byte_ofNat_val (b : Byte) : (Fin.ofNat b.val : Byte) = b := by
  apply Fin.ext
  have := b.isLt
  simp [Fin.ofNat]

theorem unescape_escape (bs : List Byte) : unescape (escape bs) = some bs := by
  induction bs with
  | nil => rfl
  | cons b bs ih =>
    have hb := b.isLt
    unfold escape
    split
    · rename_i hp
      have hc : (Char.ofNat b.val).toNat = b.val := char_toNat_ofNat _ hb
      have hbd := isPlain_bounds _ hp
      have h92 : ¬ b.val = 92 := hbd.2.2.2
      rw [unescape.eq_def]
      simp only [hc, h92, if_false, hp, if_true, ih, byte_ofNat_val]
    · have h92 : (Char.ofNat 92).toNat = 92 := char_toNat_ofNat _ (by omega)
      rw [unescape.eq_def]
      simp only [h92, if_true]
      rw [hexValue_hexDigit _ (by omega), hexValue_hexDigit _ (by omega), ih]
      simp only [byte_of_nibbles]

theorem unquote_quote (bs : List Byte) : unquote (quote bs) = some bs := by
  have h34 : (Char.ofNat 34).toNat = 34 := char_toNat_ofNat _ (by omega)
  simp [quote, unquote, h34, unescape_escape]

theorem decodeValue_encodeValue (v : BinValue) :
    decodeValue (typeTag v).data (encodeValue v) = some v := by
  cases v with
  | numeric n => simp [decodeValue, typeTag, encodeValue, decodeInt_encodeInt]
  | string bs => simp [decodeValue, typeTag, encodeValue, unquote_quote]
  | geojson bs => simp [decodeValue, typeTag, encodeValue, unquote_quote]


theorem code_not_separator (c : Char) (h : 33 ≤ c.toNat) : c ≠ ' ' ∧ c ≠ '\n' := by
  constructor
  · intro hc; rw [hc] at h; revert h; decide
  · intro hc; rw [hc] at h; revert h; decide

theorem encodeHex_chars (bs : List Byte) : ∀ c ∈ encodeHex bs, 33 ≤ c.toNat := by
  induction bs with
  | nil => intro c hc; simp [encodeHex] at hc
  | cons b bs ih =>
    intro c hc
    have hb := b.isLt
    simp only [encodeHex, List.mem_cons] at hc
    rcases hc with h | h | h
    · have := hexDigit_code (b.val / 16) (by omega); rw [h]; omega
    · have := hexDigit_code (b.val % 16) (by omega); rw [h]; omega
    · exact ih c h

theorem escape_chars (bs : List Byte) : ∀ c ∈ escape bs, 33 ≤ c.toNat := by
  induction bs with
  | nil => intro c hc; simp [escape] at hc
  | cons b bs ih =>
    intro c hc
    have hb := b.isLt
    unfold escape at hc
    split at hc
    · rename_i hp
      rcases List.mem_cons.mp hc with h | h
      · rw [h, char_toNat_ofNat _ hb]; exact (isPlain_bounds _ hp).1
      · exact ih c h
    · simp only [List.mem_cons] at hc
      rcases hc with h | h | h | h
      · rw [h, char_toNat_ofNat _ (by omega)]; omega
      · have := hexDigit_code (b.val / 16) (by omega); rw [h]; omega
      · have := hexDigit_code (b.val % 16) (by omega); rw [h]; omega
      · exact ih c h

theorem encodeValue_chars (v : BinValue) : ∀ c ∈ encodeValue v, 33 ≤ c.toNat := by
  have h34 : (Char.ofNat 34).toNat = 34 := char_toNat_ofNat _ (by omega)
  have hq : ∀ bs : List Byte, ∀ c ∈ quote bs, 33 ≤ c.toNat := by
    intro bs c hc
    simp only [quote, List.mem_cons, List.mem_append, List.mem_singleton] at hc
    rcases hc with h | h | h
    · rw [h, h34]; omega
    · exact escape_chars bs c h
    · rcases h with h | h
      · rw [h, h34]; omega
      · simp at h
  cases v with
  | numeric n =>
    intro c hc
    simp only [encodeValue] at hc
    unfold encodeInt at hc
    split at hc
    · rcases List.mem_cons.mp hc with h | h
      · rw [h, char_toNat_ofNat _ (by omega)]; omega
      · have := encodeNat_chars _ c h; omega
    · have := encodeNat_chars _ c hc; omega
  | string bs => exact hq bs
  | geojson bs => exact hq bs

theorem typeTag_chars (v : BinValue) : ∀ c ∈ (typeTag v).data, 33 ≤ c.toNat := by
  cases v <;> simp only [typeTag] <;> decide

theorem lineTokens_lineOf (m : Char) (fields : List (List Char)) (hm : m ≠ ' ')
    (hne : fields ≠ []) (hsp : ∀ f ∈ fields, ' ' ∉ f) :
    lineTokens (lineOf ⟨[m, ' ']⟩ fields) = [m] :: fields := by
  have e : [m, ' '] ++ [' '].intercalate fields = [' '].intercalate ([m] :: fields) := by
    cases fields with
    | nil => exact absurd rfl hne
    | cons f fs => simp [List.intercalate, List.intersperse]
  unfold lineTokens lineOf
  simp only [e]
  apply List.splitOn_intercalate
  · intro l hl
    rcases List.mem_cons.mp hl with h | h
    · rw [h]; simpa using hm.symm
    · exact hsp l h
  · simp

theorem startsWith_lineOf (m p : Char) (fields : List (List Char)) :
    startsWith (lineOf ⟨[m, ' ']⟩ fields) ⟨[p, ' ']⟩ = decide (p = m) := by
  by_cases h : p = m <;> simp [startsWith, lineOf, List.isPrefixOf, h]

theorem decodeLine_encodeRecordMeta (st : DecoderState) (m : RecordMeta) (hv : m.valid) :
    decodeLine st (encodeRecordMeta m) =
      (.ok (.recordMeta m), { current := some m, recordCount := st.recordCount + 1 }) := by
  obtain ⟨hd, hg, he⟩ := hv
  have ht : lineTokens (encodeRecordMeta m) =
      ['+'] :: ["digest".data, encodeHex m.digest, "generation".data, encodeNat m.generation,
        "expiration".data, encodeNat m.expiration] := by
    refine lineTokens_lineOf '+' _ (by decide) (by simp) ?_
    intro f hf
    simp only [List.mem_cons, List.mem_singleton, List.not_mem_nil, or_false] at hf
    rcases hf with h | h | h | h | h | h <;> rw [h]
    · decide
    · exact fun hc => (code_not_separator _ (encodeHex_chars _ _ hc)).1 rfl
    · decide
    · exact fun hc => (code_not_separator _ (by have := encodeNat_chars _ _ hc; omega)).1 rfl
    · decide
    · exact fun hc => (code_not_separator _ (by have := encodeNat_chars _ _ hc; omega)).1 rfl
  have hsize : (lineTokens (encodeRecordMeta m)).any
      (fun t => decide (MAX_TOKEN_SIZE < t.length)) = false := by
    rw [ht]
    simp only [List.any_cons, List.any_nil, Bool.or_false, Bool.or_eq_false_iff,
      decide_eq_false_iff_not, not_lt]
    refine ⟨by decide, by decide, hd, by decide, hg, by decide, he⟩
  have h1 : startsWith (encodeRecordMeta m) META_PREFIX = false :=
    startsWith_lineOf '+' '#' _
  have h2 : startsWith (encodeRecordMeta m) GLOBAL_PREFIX = false :=
    startsWith_lineOf '+' '*' _
  have h3 : startsWith (encodeRecordMeta m) RECORD_META_PREFIX = true :=
    startsWith_lineOf '+' '+' _
  have hf : decodeRecordMetaFields (lineTokens (encodeRecordMeta m)).tail = some m := by
    rw [ht]
    simp [decodeRecordMetaFields, decodeHex_encodeHex, decodeNat_encodeNat]
  unfold decodeLine
  simp only [hsize, h1, h2, h3, hf, if_true, Bool.false_eq_true, if_false]

theorem lineTokens_encodeRecordBin (b : RecordBin) (hsp : ' ' ∉ b.name.data) :
    lineTokens (encodeRecordBin b) =
      ['-'] :: [b.name.data, (typeTag b.value).data, encodeValue b.value] := by
  refine lineTokens_lineOf '-' _ (by decide) (by simp) ?_
  intro f hf
  simp only [List.mem_cons, List.mem_singleton, List.not_mem_nil, or_false] at hf
  rcases hf with h | h | h <;> rw [h]
  · exact hsp
  · exact fun hc => (code_not_separator _ (typeTag_chars _ _ hc)).1 rfl
  · exact fun hc => (code_not_separator _ (encodeValue_chars _ _ hc)).1 rfl

theorem decodeLine_encodeRecordBin (st : DecoderState) (cur : RecordMeta) (b : RecordBin)
    (hcur : st.current = some cur) (hv : b.valid) (hfit : b.fits) :
    decodeLine st (encodeRecordBin b) = (.ok (.recordBin b), st) := by
  obtain ⟨hsp, _, hn⟩ := hv
  have hval : (encodeValue b.value).length ≤ MAX_TOKEN_SIZE := hfit
  have ht := lineTokens_encodeRecordBin b hsp
  have htag : (typeTag b.value).data.length ≤ MAX_TOKEN_SIZE := by
    cases b.value <;> simp only [typeTag] <;> decide
  have hsize : (lineTokens (encodeRecordBin b)).any
      (fun t => decide (MAX_TOKEN_SIZE < t.length)) = false := by
    rw [ht]
    simp only [List.any_cons, List.any_nil, Bool.or_false, Bool.or_eq_false_iff,
      decide_eq_false_iff_not, not_lt]
    exact ⟨by decide, hn, htag, hval⟩
  have h1 : startsWith (encodeRecordBin b) META_PREFIX = false :=
    startsWith_lineOf '-' '#' _
  have h2 : startsWith (encodeRecordBin b) GLOBAL_PREFIX = false :=
    startsWith_lineOf '-' '*' _
  have h3 : startsWith (encodeRecordBin b) RECORD_META_PREFIX = false :=
    startsWith_lineOf '-' '+' _
  have h4 : startsWith (encodeRecordBin b) RECORD_BIN_PREFIX = true :=
    startsWith_lineOf '-' '-' _
  have hf : decodeRecordBinFields (lineTokens (encodeRecordBin b)).tail = some b := by
    rw [ht]
    simp [decodeRecordBinFields, decodeValue_encodeValue]
  unfold decodeLine
  simp only [hsize, h1, h2, h3, h4, hf, hcur, if_true, Bool.false_eq_true, if_false]

theorem decodeLine_token_over_limit (st : DecoderState) (line : String) (t : List Char)
    (ht : t ∈ lineTokens line) (hlen : MAX_TOKEN_SIZE < t.length) :
    decodeLine st line = (.error .FormatError, st) := by
  have hany : (lineTokens line).any (fun t => decide (MAX_TOKEN_SIZE < t.length)) = true :=
    List.any_eq_true.mpr ⟨t, ht, by simpa using hlen⟩
  unfold decodeLine
  rw [if_pos hany]

theorem decodeLine_encodeRecordBin_over_limit (st : DecoderState) (b : RecordBin)
    (hv : b.valid) (hfit : ¬ b.fits) :
    decodeLine st (encodeRecordBin b) = (.error .FormatError, st) := by
  refine decodeLine_token_over_limit st _ (encodeValue b.value) ?_ ?_
  · rw [lineTokens_encodeRecordBin b hv.1]
    simp
  · exact Nat.lt_of_not_le hfit

theorem decodeLines_bins (st : DecoderState) (cur : RecordMeta) (hcur : st.current = some cur) :
    ∀ bins : List RecordBin, (∀ b ∈ bins, b.valid) → (∀ b ∈ bins, b.fits) →
      decodeLines st (bins.map encodeRecordBin) = (.ok (bins.map Line.recordBin), st) := by
  intro bins
  induction bins with
  | nil => intro _ _; rfl
  | cons b bs ih =>
    intro hv hfit
    have hb := decodeLine_encodeRecordBin st cur b hcur (hv b (by simp)) (hfit b (by simp))
    have hbs := ih (fun x hx => hv x (by simp [hx])) (fun x hx => hfit x (by simp [hx]))
    simp only [List.map_cons, decodeLines, hb, hbs]

theorem decodeLines_bins_over_limit (st : DecoderState) (cur : RecordMeta)
    (hcur : st.current = some cur) :
    ∀ bins : List RecordBin, (∀ b ∈ bins, b.valid) → (∃ b ∈ bins, ¬ b.fits) →
      decodeLines st (bins.map encodeRecordBin) = (.error .FormatError, st) := by
  intro bins
  induction bins with
  | nil => intro _ ⟨b, hb, _⟩; simp at hb
  | cons b bs ih =>
    intro hv hex
    by_cases hfit : b.fits
    · have hb := decodeLine_encodeRecordBin st cur b hcur (hv b (by simp)) hfit
      have hrest : ∃ x ∈ bs, ¬ x.fits := by
        obtain ⟨x, hx, hnx⟩ := hex
        rcases List.mem_cons.mp hx with h | h
        · exact absurd (h ▸ hfit) hnx
        · exact ⟨x, h, hnx⟩
      have hbs := ih (fun x hx => hv x (by simp [hx])) hrest
      simp only [List.map_cons, decodeLines, hb, hbs]
    · have hb := decodeLine_encodeRecordBin_over_limit st b (hv b (by simp)) hfit
      simp only [List.map_cons, decodeLines, hb]

theorem decodeLines_encodeGroup (st : DecoderState) (g : RecordGroup) (hv : g.valid)
    (hfit : g.fits) :
    decodeLines st (encodeGroup g) =
      (.ok (Line.recordMeta g.header :: g.bins.map Line.recordBin),
        { current := some g.header, recordCount := st.recordCount + 1 }) := by
  have hm := decodeLine_encodeRecordMeta st g.header hv.1
  have hbs := decodeLines_bins { current := some g.header, recordCount := st.recordCount + 1 }
    g.header rfl g.bins hv.2 hfit
  simp only [encodeGroup, decodeLines, hm, hbs]

theorem decodeLines_encodeGroup_over_limit (st : DecoderState) (g : RecordGroup)
    (hv : g.valid) (hfit : ¬ g.fits) :
    decodeLines st (encodeGroup g) =
      (.error .FormatError,
        { current := some g.header, recordCount := st.recordCount + 1 }) := by
  have hex : ∃ b ∈ g.bins, ¬ b.fits := by
    by_contra hne
    apply hfit
    intro b hb
    by_contra hb'
    exact hne ⟨b, hb, hb'⟩
  have hm := decodeLine_encodeRecordMeta st g.header hv.1
  have hbs := decodeLines_bins_over_limit
    { current := some g.header, recordCount := st.recordCount + 1 } g.header rfl g.bins hv.2 hex
  simp only [encodeGroup, decodeLines, hm, hbs]

theorem not_mem_intercalate (c s : Char) (hcs : c ≠ s) :
    ∀ fields : List (List Char), (∀ f ∈ fields, c ∉ f) →
      c ∉ [s].intercalate fields := by
  intro fields
  induction fields with
  | nil => intro _; simp [List.intercalate]
  | cons f fs ih =>
    intro h
    cases fs with
    | nil => simpa [List.intercalate] using h f (by simp)
    | cons f2 fs2 =>
      have ih2 := ih (fun x hx => h x (by simp [hx]))
      have hf := h f (by simp)
      simp only [List.intercalate, List.intersperse, List.flatten_cons, List.mem_append,
        List.mem_singleton, not_or] at ih2 ⊢
      exact ⟨hf, hcs, ih2⟩

theorem flatten_terminated (lines : List String) :
    (lines.map fun l => l.data ++ ['\n']).flatten =
      ['\n'].intercalate (lines.map String.data ++ [[]]) := by
  induction lines with
  | nil => rfl
  | cons l ls ih =>
    rw [List.map_cons, List.flatten_cons, ih]
    cases ls with
    | nil => simp [List.intercalate]
    | cons l2 ls2 => simp [List.intercalate, List.intersperse]

theorem textLines_fileText (lines : List String) (h : ∀ l ∈ lines, '\n' ∉ l.data) :
    textLines (fileText lines) = lines := by
  have hs : (fileText lines).data.splitOn '\n' = lines.map String.data ++ [[]] := by
    unfold fileText
    simp only [flatten_terminated]
    apply List.splitOn_intercalate
    · intro l hl
      rcases List.mem_append.mp hl with h1 | h1
      · obtain ⟨x, hx, rfl⟩ := List.mem_map.mp h1
        exact h x hx
      · simp at h1; rw [h1]; simp
    · simp
  unfold textLines
  rw [hs]
  simp [List.map_map, Function.comp_def]

theorem encodeGroup_no_newline (g : RecordGroup) (hv : g.valid) :
    ∀ l ∈ encodeGroup g, '\n' ∉ l.data := by
  have hline : ∀ (m : Char) (fields : List (List Char)), m ≠ '\n' →
      (∀ f ∈ fields, '\n' ∉ f) → '\n' ∉ (lineOf ⟨[m, ' ']⟩ fields).data := by
    intro m fields hm hf
    have := not_mem_intercalate '\n' ' ' (by decide) fields hf
    simp only [lineOf, List.cons_append, List.nil_append, List.mem_cons, not_or]
    exact ⟨fun e => hm e.symm, by decide, this⟩
  intro l hl
  simp only [encodeGroup, List.mem_cons, List.mem_map] at hl
  rcases hl with h | ⟨b, hb, h⟩
  · rw [h]
    refine hline '+' _ (by decide) ?_
    intro f hf
    simp only [List.mem_cons, List.mem_singleton, List.not_mem_nil, or_false] at hf
    rcases hf with h | h | h | h | h | h <;> rw [h]
    · decide
    · exact fun hc => (code_not_separator _ (encodeHex_chars _ _ hc)).2 rfl
    · decide
    · exact fun hc => (code_not_separator _ (by have := encodeNat_chars _ _ hc; omega)).2 rfl
    · decide
    · exact fun hc => (code_not_separator _ (by have := encodeNat_chars _ _ hc; omega)).2 rfl
  · rw [← h]
    refine hline '-' _ (by decide) ?_
    intro f hf
    simp only [List.mem_cons, List.mem_singleton, List.not_mem_nil, or_false] at hf
    rcases hf with h | h | h <;> rw [h]
    · exact (hv.2 b hb).2.1
    · exact fun hc => (code_not_separator _ (typeTag_chars _ _ hc)).2 rfl
    · exact fun hc => (code_not_separator _ (encodeValue_chars _ _ hc)).2 rfl

theorem resolveSteps_lacks (steps : List (List Char)) (v : Value) (h : Lacks steps v) :
    resolveSteps steps v = .PATH_TYPE_INVALID := by
  induction h with
  | missing hs => simp only [resolveSteps, hs]
  | deeper hs _ ih => simp only [resolveSteps, hs, ih]


theorem startsWith_bin_only (line : String) (h : startsWith line RECORD_BIN_PREFIX = true) :
    startsWith line META_PREFIX = false ∧ startsWith line GLOBAL_PREFIX = false ∧
    startsWith line RECORD_META_PREFIX = false := by
  refine ⟨?_, ?_, ?_⟩
  · cases h' : startsWith line META_PREFIX with
    | false => rfl
    | true =>
      exact absurd (startsWith_unique line _ _ (by decide) (by decide) h' h) (by decide)
  · cases h' : startsWith line GLOBAL_PREFIX with
    | false => rfl
    | true =>
      exact absurd (startsWith_unique line _ _ (by decide) (by decide) h' h) (by decide)
  · cases h' : startsWith line RECORD_META_PREFIX with
    | false => rfl
    | true =>
      exact absurd (startsWith_unique line _ _ (by decide) (by decide) h' h) (by decide)

theorem decodeLine_error_kind (st : DecoderState) (line : String) (e : Error)
    (st' : DecoderState) (h : decodeLine st line = (.error e, st')) :
    e = .FormatError ∧ st' = st := by
  unfold decodeLine at h
  repeat' split at h
  all_goals first
    | (simp only [Prod.mk.injEq, Except.error.injEq] at h; exact ⟨h.1.symm, h.2.symm⟩)
    | (simp only [Prod.mk.injEq] at h; exact absurd h.1 (by simp))

/-! ### Size limits, round trip, sequencing and path resolution -/

/-- The example file of the design description, after its version line: two meta lines, a
record-meta line and two record-bin lines decode to one record with digest `ab12`,
generation 1, expiration 0 and the two bins `name` (string `Alice`) and `age` (numeric 30). -/
theorem example_file_decodes :
    decodeText DecoderState.initial
      "# namespace test\n# first-file\n+ digest ab12 generation 1 expiration 0\n- name string \"Alice\"\n- age numeric 30\n" =
      (.ok [Line.metaData { key := "namespace", value := some "test" },
            Line.metaData { key := "first-file", value := none },
            Line.recordMeta { digest := [0xab, 0x12], generation := 1, expiration := 0 },
            Line.recordBin { name := "name", value := .string [65, 108, 105, 99, 101] },
            Line.recordBin { name := "age", value := .numeric 30 }],
        { current := some { digest := [0xab, 0x12], generation := 1, expiration := 0 },
          recordCount := 1 }) := by
  rfl

/-- The malformed file of the design description: a record-bin line right after the two meta
lines is rejected with `FormatError`, and no record has been counted. -/
theorem example_file_without_record_meta_fails :
    decodeText DecoderState.initial "# namespace test\n# first-file\n- age numeric 30\n" =
      (.error .FormatError, DecoderState.initial) := by
  rfl

/-- A line that starts with none of the four markers is a decode error. -/
theorem decodeLine_unknown_marker (st : DecoderState) (line : String)
    (h : ∀ p ∈ linePrefixes, startsWith line p = false) :
    decodeLine st line = (.error .FormatError, st) := by
  have h1 := h META_PREFIX (by decide)
  have h2 := h GLOBAL_PREFIX (by decide)
  have h3 := h RECORD_META_PREFIX (by decide)
  have h4 := h RECORD_BIN_PREFIX (by decide)
  unfold decodeLine
  split
  · rfl
  · simp only [h1, h2, h3, h4, Bool.false_eq_true, if_false]

/-- C5: size enforcement. Encoding a meta line whose text is longer than `MAX_META_LINE`
fails. Decoding a line that has a token longer than `MAX_TOKEN_SIZE` fails with
`FormatError` in every decoder state and leaves the state as it was, so no token of such a
line is returned, truncated or not: a line that decodes has only tokens within the limit. -/
theorem size_limits_enforced :
    (∀ m : MetaLine, MAX_META_LINE < (metaText m).length →
      encodeMeta m = .error .FormatError) ∧
    (∀ (st : DecoderState) (line : String),
      (∃ t ∈ lineTokens line, MAX_TOKEN_SIZE < t.length) →
      decodeLine st line = (.error .FormatError, st)) ∧
    (∀ (st st' : DecoderState) (line : String) (l : Line),
      decodeLine st line = (.ok l, st') →
      ∀ t ∈ lineTokens line, t.length ≤ MAX_TOKEN_SIZE) := by
  have hdec : ∀ (st : DecoderState) (line : String),
      (∃ t ∈ lineTokens line, MAX_TOKEN_SIZE < t.length) →
      decodeLine st line = (.error .FormatError, st) := by
    intro st line ⟨t, ht, hlen⟩
    have hany : (lineTokens line).any (fun t => decide (MAX_TOKEN_SIZE < t.length)) = true :=
      List.any_eq_true.mpr ⟨t, ht, by simpa using hlen⟩
    unfold decodeLine
    rw [if_pos hany]
  refine ⟨?_, hdec, ?_⟩
  · intro m h
    unfold encodeMeta
    rw [if_pos h]
  · intro st st' line l hok t ht
    by_contra hlt
    have herr := hdec st line ⟨t, ht, Nat.lt_of_not_le hlt⟩
    rw [herr] at hok
    simp at hok

/-- C5 at a meta line with a key of 1001 characters and at a record-bin line whose bin name
has 1001 characters: the first is too long to encode, the second has a token over the
limit and fails to decode with `FormatError`. -/
theorem size_limits_enforced_witness :
    encodeMeta { key := ⟨List.replicate 1001 'k'⟩, value := none } = .error .FormatError ∧
    decodeLine DecoderState.initial (lineOf RECORD_BIN_PREFIX [List.replicate 1001 'n',
      "numeric".data, "30".data]) = (.error .FormatError, DecoderState.initial) := by
  have hmeta : ∀ n : Nat,
      (metaText { key := ⟨List.replicate n 'k'⟩, value := none }).length = 2 + n := by
    intro n
    simp [metaText, lineOf, META_PREFIX, List.intercalate]
    omega
  have htok : ∀ n : Nat, List.replicate n 'n' ∈
      lineTokens (lineOf RECORD_BIN_PREFIX [List.replicate n 'n', "numeric".data, "30".data]) := by
    intro n
    have ht := lineTokens_lineOf '-' [List.replicate n 'n', "numeric".data, "30".data]
      (by decide) (by simp) (by
        intro f hf
        simp only [List.mem_cons, List.mem_singleton, List.not_mem_nil, or_false] at hf
        rcases hf with h | h | h <;> rw [h]
        · simp [List.mem_replicate]
        · decide
        · decide)
    have hl : lineTokens (lineOf RECORD_BIN_PREFIX [List.replicate n 'n',
        "numeric".data, "30".data]) =
        ['-'] :: [List.replicate n 'n', "numeric".data, "30".data] := ht
    rw [hl]
    simp
  refine ⟨size_limits_enforced.1 _ ?_, size_limits_enforced.2.1 _ _ ?_⟩
  · rw [hmeta 1001]
    decide
  · refine ⟨List.replicate 1001 'n', htok 1001, ?_⟩
    rw [List.length_replicate]
    decide

/-- Every encoding of payloads that can be read back gives some payload more characters
than `MAX_TOKEN_SIZE`: there are only finitely many tokens within the limit. A payload
written as one token of a line therefore meets the token-size limit whatever the escaped
representation is. -/
theorem payload_token_exceeds_limit (enc : List Byte → List Char)
    (dec : List Char → Option (List Byte)) (h : ∀ bs, dec (enc bs) = some bs) :
    ∃ bs, MAX_TOKEN_SIZE < (enc bs).length := by
  by_contra hno
  have hle : ∀ bs, (enc bs).length ≤ MAX_TOKEN_SIZE := fun bs =>
    Nat.le_of_not_lt fun hlt => hno ⟨bs, hlt⟩
  have hinj : Function.Injective enc := by
    intro a b hab
    have := h a
    rw [hab, h b] at this
    exact (Option.some.inj this).symm
  have hchar : Finite Char := by
    have hlt : ∀ c : Char, c.toNat < 1114112 := by
      intro c
      rcases c.valid with hv | hv
      · exact Nat.lt_trans hv (by decide)
      · exact hv.2
    refine Finite.of_injective (fun c : Char => (⟨c.toNat, hlt c⟩ : Fin 1114112)) ?_
    intro a b hab
    have hab' : (⟨a.toNat, hlt a⟩ : Fin 1114112) = ⟨b.toNat, hlt b⟩ := hab
    have hn : a.toNat = b.toNat := Fin.mk.inj hab'
    rw [← Char.ofNat_toNat a, ← Char.ofNat_toNat b, hn]
  have hfin : (Set.range enc).Finite :=
    (List.finite_length_le Char MAX_TOKEN_SIZE).subset (by
      rintro _ ⟨bs, rfl⟩
      exact hle bs)
  exact Set.infinite_range_of_injective hinj hfin

/-- C7: sequencing. In every decoder state with no open record context, decoding a line
that starts with the record-bin marker fails with `FormatError`, the state after the call
is the state before it, so the record count has not advanced, and decoding any sequence of
lines that begins with such a line stops there with the same error and state. -/
theorem bin_line_without_record_context_fails (st : DecoderState) (line : String)
    (hctx : st.current = none) (hbin : startsWith line RECORD_BIN_PREFIX = true) :
    decodeLine st line = (.error .FormatError, st) ∧
    (decodeLine st line).2.recordCount = st.recordCount ∧
    ∀ rest : List String, decodeLines st (line :: rest) = (.error .FormatError, st) := by
  obtain ⟨h1, h2, h3⟩ := startsWith_bin_only line hbin
  have h : decodeLine st line = (.error .FormatError, st) := by
    unfold decodeLine
    split
    · rfl
    · simp only [h1, h2, h3, hbin, hctx, Bool.false_eq_true, if_false, if_true]
  refine ⟨h, by rw [h], ?_⟩
  intro rest
  simp only [decodeLines, h]

/-- C7 at the line `- age numeric 30` right after the header: the state after the two meta
lines has no record context and count 0, and the line is rejected with `FormatError`
without advancing the count. -/
theorem bin_line_without_record_context_fails_witness :
    (decodeLines DecoderState.initial ["# namespace test", "# first-file"]).2 =
      DecoderState.initial ∧
    DecoderState.initial.current = none ∧
    startsWith "- age numeric 30" RECORD_BIN_PREFIX = true ∧
    decodeLine DecoderState.initial "- age numeric 30" =
      (.error .FormatError, DecoderState.initial) ∧
    (decodeLine DecoderState.initial "- age numeric 30").2.recordCount = 0 :=
  have h := bin_line_without_record_context_fails DecoderState.initial "- age numeric 30"
    rfl (by decide)
  ⟨by decide, rfl, by decide, h.1, h.2.1⟩

/-- C8: path resolution is a total function into the four path types, and for every path
and every record that lacks a field referenced by the path it returns
`PATH_TYPE_INVALID`. -/
theorem resolve_missing_field_invalid :
    (∀ (path : String) (record : List (String × Value)),
      Lacks (pathSteps path) (.map record) → resolve path record = .PATH_TYPE_INVALID) ∧
    (∀ (path : String) (record : List (String × Value)),
      resolve path record = .PATH_TYPE_INVALID ∨ resolve path record = .PATH_TYPE_STRING ∨
      resolve path record = .PATH_TYPE_NUMERIC ∨ resolve path record = .PATH_TYPE_GEOJSON) := by
  constructor
  · intro path record h
    exact resolveSteps_lacks _ _ h
  · intro path record
    cases resolve path record <;> simp

/-- C8 at a record with the bins `name` and `pos`: the path `city` names no bin and the
path `pos.2` indexes past the end of a two-element list; both resolve to invalid. -/
theorem resolve_missing_field_invalid_witness :
    resolve "city" [("name", .scalar .string [65]), ("pos", .list [.scalar .integer [30],
      .scalar .geospatial []])] = .PATH_TYPE_INVALID ∧
    resolve "pos.2" [("name", .scalar .string [65]), ("pos", .list [.scalar .integer [30],
      .scalar .geospatial []])] = .PATH_TYPE_INVALID :=
  ⟨resolve_missing_field_invalid.1 "city" _ (Lacks.missing rfl),
   resolve_missing_field_invalid.1 "pos.2" _
     (Lacks.deeper
       (show select "pos".data _ = some (Value.list [.scalar .integer [30],
         .scalar .geospatial []]) from rfl)
       (Lacks.missing rfl))⟩

end Shared
